import Mathlib

/-!
Shallow embedding of the NozyWallet shielded-note core (src/notes.rs,
src/transaction_signer.rs, src/hd_wallet.rs, src/error.rs) and proofs about
it.  Machine integers (`u64`, `u32`) are modelled as `Nat`; byte vectors
(`Vec<u8>`) as `List Nat`; `HashMap<String, _>` as an association list in an
arbitrary but fixed iteration order.  The external hash primitives
(`blake2b_simd` with 32-byte output, `sha2::Sha256`) and the external
`ed25519_dalek` signature scheme are parameters of the embedding: the code
under verification only ever feeds them byte strings and uses their results,
so every theorem quantifies over them (or, for hypotheses on the signature
scheme, names the property of the primitive it relies on).
-/

namespace Nozy

/-- Little-endian byte encoding of a `u64` (`u64::to_le_bytes`). -/
def natLeBytes8 (n : Nat) : List Nat :=
  (List.range 8).map (fun i => n / 256 ^ i % 256)

/-- Bytes of a Rust string slice (`str::as_bytes`), modelled by codepoints. -/
def strBytes (s : String) : List Nat :=
  s.toList.map Char.toNat

/-- One lowercase hexadecimal digit. -/
def hexDigit (n : Nat) : Char :=
  if n < 10 then Char.ofNat (48 + n) else Char.ofNat (87 + n)

/-- `hex::encode` of a byte list (two lowercase digits per byte). -/
def hexEncode (bs : List Nat) : String :=
  String.mk ((bs.map (fun b => [hexDigit (b % 256 / 16), hexDigit (b % 16)])).flatten)

/-- The external hash primitives used by the wallet: `blake` is blake2b with
`hash_length(32)` over the concatenation of all `update` calls, `sha` is
SHA-256.  Both crates are outside the repository, so they stay abstract. -/
structure HashModel where
  blake : List Nat → List Nat
  sha : List Nat → List Nat

/-- `NozyError` as declared in src/error.rs (every variant carries a
message `String`; there is no `TreeFull` variant). -/
inductive NozyError where
  | Config (msg : String)
  | Storage (msg : String)
  | Note (msg : String)
  | Transaction (msg : String)
  | Network (msg : String)
  | Serialization (msg : String)
  | InvalidOperation (msg : String)
  | InsufficientFunds (msg : String)
deriving DecidableEq, Repr

/-- `NozyResult<T>` from src/error.rs. -/
abbrev NozyResult (α : Type) := Except NozyError α

/-- `NoteType` from src/notes.rs. -/
inductive NoteType where
  | Orchard
  | Sapling
deriving DecidableEq, Repr, Inhabited

/-- `NoteSelectionStrategy` from src/notes.rs. -/
inductive NoteSelectionStrategy where
  | PrivacyFirst
  | EfficiencyFirst
  | Balanced
  | ValueBased
  | AgeBased
deriving DecidableEq, Repr, Inhabited

/-- `ShieldedNote` from src/notes.rs. -/
structure ShieldedNote where
  id : String
  note_type : NoteType
  value : Nat
  commitment : List Nat
  nullifier : Option (List Nat)
  recipient_address : String
  memo : Option (List Nat)
  randomness : List Nat
  created_at_height : Nat
  spent_at_height : Option Nat
  tx_hash : Option (List Nat)
  merkle_path : Option (List (List Nat))
  position : Option Nat
deriving DecidableEq, Repr, Inhabited

/-- `NoteManagerConfig` from src/notes.rs. -/
structure NoteManagerConfig where
  default_strategy : NoteSelectionStrategy
  enable_consolidation : Bool
  min_consolidation_value : Nat
  max_consolidation_notes : Nat
  enable_note_mixing : Bool
  mixing_rounds : Nat
deriving DecidableEq, Repr

/-- `CommitmentTree` from src/notes.rs: `nodes` is the append-only leaf
sequence, `root` the stored root digest. -/
structure CommitmentTree where
  depth : Nat
  size : Nat
  root : List Nat
  nodes : List (List Nat)
deriving DecidableEq, Repr

/-- `NoteManager` from src/notes.rs; the `HashMap<String, ShieldedNote>` is
modelled as an association list in one fixed iteration order. -/
structure NoteManager where
  notes : List (String × ShieldedNote)
  config : NoteManagerConfig
  commitment_tree : CommitmentTree
deriving DecidableEq, Repr

/-- `HashMap::get` on the association-list model. -/
def alLookup {α : Type} : List (String × α) → String → Option α
  | [], _ => none
  | (k, v) :: rest, key => if k = key then some v else alLookup rest key

/-- `HashMap::insert` (replace the value when the key is present, otherwise
add an entry). -/
def alInsert {α : Type} : List (String × α) → String → α → List (String × α)
  | [], key, v => [(key, v)]
  | (k, w) :: rest, key, v =>
    if k = key then (key, v) :: rest else (k, w) :: alInsert rest key v

/-- In-place mutation through `HashMap::get_mut`: apply `f` to the entry with
the given key, when there is one. -/
def alUpdate {α : Type} : List (String × α) → String → (α → α) → List (String × α)
  | [], _, _ => []
  | (k, v) :: rest, key, f =>
    if k = key then (k, f v) :: rest else (k, v) :: alUpdate rest key f

/-- `NoteManager::new` (src/notes.rs:132).  The Rust constructor always
returns `Ok`, so the wrapper is dropped; `enableOrchard` stands for
`config.privacy.enable_orchard`. -/
def newManager (enableOrchard : Bool) : NoteManager :=
  { notes := []
    config :=
      { default_strategy := .PrivacyFirst
        enable_consolidation := enableOrchard
        min_consolidation_value := 10000
        max_consolidation_notes := 10
        enable_note_mixing := true
        mixing_rounds := 3 }
    commitment_tree :=
      { depth := 32, size := 0, root := List.replicate 32 0, nodes := [] } }

/-- `NoteManager::calculate_note_commitment` (src/notes.rs:206): blake2b-256
over value bytes, address bytes, randomness and a pool tag.  Always `Ok` in
the source, so modelled as the digest itself. -/
def calculate_note_commitment (hm : HashModel) (value : Nat)
    (recipient_address : String) (randomness : List Nat) (note_type : NoteType) :
    List Nat :=
  hm.blake (natLeBytes8 value ++ strBytes recipient_address ++ randomness ++
    strBytes (match note_type with | .Orchard => "orchard" | .Sapling => "sapling"))

/-- `NoteManager::generate_note_id` (src/notes.rs:233): hex of the first 8
bytes of `Sha256(commitment || address)`. -/
def generate_note_id (hm : HashModel) (commitment : List Nat) (address : String) :
    String :=
  hexEncode ((hm.sha (commitment ++ strBytes address)).take 8)

/-- One bottom-up level of `calculate_tree_root`: `chunks(2)` pairs nodes left
to right and a last unpaired node is hashed with itself. -/
def hashLevel (hm : HashModel) : List (List Nat) → List (List Nat)
  | [] => []
  | [a] => [hm.blake (a ++ a)]
  | a :: b :: rest => hm.blake (a ++ b) :: hashLevel hm rest

/-- Each level of the tree has at most as many nodes as the one below it
(needed only for termination of `rootLoop`). -/
def hashLevel_length_le (hm : HashModel) :
    (l : List (List Nat)) → (hashLevel hm l).length ≤ l.length
  | [] => Nat.le_refl _
  | [_] => by simp [hashLevel]
  | _ :: _ :: rest => by
    have ih := hashLevel_length_le hm rest
    simp only [hashLevel, List.length_cons]
    omega

/-- The `while current_level.len() > 1` loop of `calculate_tree_root`
(src/notes.rs:273); the `[]` case is unreachable from a non-empty start. -/
def rootLoop (hm : HashModel) : List (List Nat) → List Nat
  | [] => List.replicate 32 0
  | [a] => a
  | a :: b :: rest => rootLoop hm (hashLevel hm (a :: b :: rest))
termination_by l => l.length
decreasing_by
  have := hashLevel_length_le hm rest
  simp only [hashLevel, List.length_cons]
  omega

/-- `NoteManager::calculate_tree_root` (src/notes.rs:266) as a function of the
leaf sequence: an empty tree yields the raw 32 zero bytes, otherwise the
bottom-up pairing loop runs. -/
def calculate_tree_root (hm : HashModel) (nodes : List (List Nat)) : List Nat :=
  if nodes.isEmpty then List.replicate 32 0 else rootLoop hm nodes

/-- The `while current_level_size > 1` loop of `calculate_merkle_path`
(src/notes.rs:303).  The source indexes the leaf vector at every level; the
`getD` default is unreachable because in-range indices are checked first. -/
def merklePathLoop (nodes : List (List Nat)) :
    Nat → Nat → List (List Nat)
  | pos, levelSize =>
    if levelSize ≤ 1 then []
    else
      let sibling := if pos % 2 = 0 then pos + 1 else pos - 1
      let entry :=
        if sibling < levelSize then nodes.getD sibling [] else nodes.getD pos []
      entry :: merklePathLoop nodes (pos / 2) ((levelSize + 1) / 2)
termination_by _ levelSize => levelSize
decreasing_by omega

/-- `NoteManager::calculate_merkle_path` (src/notes.rs:298); always `Ok` in
the source. -/
def calculate_merkle_path (m : NoteManager) (position : Nat) : List (List Nat) :=
  merklePathLoop m.commitment_tree.nodes position m.commitment_tree.size

/-- `NoteManager::add_note_to_tree` (src/notes.rs:242): append the commitment,
bump `size`, recompute `root`, compute the path at `size - 1`, and back-fill
`position`/`merkle_path` through `notes.get_mut(&note.id)` — which touches
the map entry with that id, when one exists. -/
def add_note_to_tree (hm : HashModel) (m : NoteManager) (note : ShieldedNote) :
    NozyResult NoteManager :=
  let nodes1 := m.commitment_tree.nodes ++ [note.commitment]
  let size1 := m.commitment_tree.size + 1
  let tree1 : CommitmentTree :=
    { m.commitment_tree with nodes := nodes1, size := size1 }
  let root1 := calculate_tree_root hm nodes1
  let position := size1 - 1
  let merkle_path := merklePathLoop nodes1 position size1
  let notes1 := alUpdate m.notes note.id
    (fun n => { n with position := some position, merkle_path := some merkle_path })
  .ok { m with
          notes := notes1
          commitment_tree := { tree1 with root := root1 } }

/-- `NoteManager::create_note` (src/notes.rs:153).  The thread-local RNG is
external, so the fresh `randomness` is a parameter; the built note (with
`position`/`merkle_path` still `None`) is passed to `add_note_to_tree` and
then returned as is. -/
def create_note (hm : HashModel) (m : NoteManager) (value : Nat)
    (recipient_address : String) (memo : Option (List Nat)) (note_type : NoteType)
    (block_height : Nat) (tx_hash : Option (List Nat)) (randomness : List Nat) :
    NozyResult (ShieldedNote × NoteManager) :=
  let commitment :=
    calculate_note_commitment hm value recipient_address randomness note_type
  let note_id := generate_note_id hm commitment recipient_address
  let note : ShieldedNote :=
    { id := note_id
      note_type := note_type
      value := value
      commitment := commitment
      nullifier := none
      recipient_address := recipient_address
      memo := memo
      randomness := randomness
      created_at_height := block_height
      spent_at_height := none
      tx_hash := tx_hash
      merkle_path := none
      position := none }
  match add_note_to_tree hm m note with
  | .error e => .error e
  | .ok m1 => .ok (note, m1)

/-- `NoteManager::add_note` (src/notes.rs:325). -/
def add_note (m : NoteManager) (note : ShieldedNote) : NozyResult NoteManager :=
  .ok { m with notes := alInsert m.notes note.id note }

/-- `NoteManager::get_unspent_notes` (src/notes.rs:337): the map's values in
iteration order, filtered to notes without a nullifier. -/
def get_unspent_notes (m : NoteManager) : List ShieldedNote :=
  (m.notes.map Prod.snd).filter (fun note => note.nullifier.isNone)

/-- `NoteManager::get_total_balance` (src/notes.rs:351). -/
def get_total_balance (m : NoteManager) : Nat :=
  ((get_unspent_notes m).map (fun note => note.value)).sum

/-- The `PrivacyFirst` comparator of `select_notes_for_spending` as the
boolean order fed to the stable sort: `a` may stay before `b` unless the
comparator says `Greater`. -/
def privacyLe (a b : ShieldedNote) : Bool :=
  match a.note_type, b.note_type with
  | .Sapling, .Orchard => false
  | _, _ => true

/-- The `EfficiencyFirst` comparator, same convention. -/
def efficiencyLe (a b : ShieldedNote) : Bool :=
  match a.note_type, b.note_type with
  | .Orchard, .Sapling => false
  | _, _ => true

/-- The `ValueBased` comparator (descending by value), same convention. -/
def valueLe (a b : ShieldedNote) : Bool :=
  decide (b.value ≤ a.value)

/-- The `AgeBased` comparator (ascending by creation height), same
convention. -/
def ageLe (a b : ShieldedNote) : Bool :=
  decide (a.created_at_height ≤ b.created_at_height)

/-- The strategy-dependent reordering of `select_notes_for_spending`
(src/notes.rs:375): Rust's `sort_by` is a stable sort, modelled by
`List.mergeSort`; `Balanced` keeps the iteration order. -/
def sorted_unspent (m : NoteManager) (strategy : NoteSelectionStrategy) :
    List ShieldedNote :=
  let unspent := get_unspent_notes m
  match strategy with
  | .PrivacyFirst => unspent.mergeSort privacyLe
  | .EfficiencyFirst => unspent.mergeSort efficiencyLe
  | .ValueBased => unspent.mergeSort valueLe
  | .AgeBased => unspent.mergeSort ageLe
  | .Balanced => unspent

/-- The greedy accumulation loop of `select_notes_for_spending`
(src/notes.rs:414): walk the sorted sequence, stop once the running total
reaches `amount`; returns the selection and the final running total. -/
def greedy_select (amount : Nat) : List ShieldedNote → Nat →
    List ShieldedNote × Nat
  | [], total => ([], total)
  | note :: rest, total =>
    if total ≥ amount then ([], total)
    else
      let out := greedy_select amount rest (total + note.value)
      (note :: out.1, out.2)

/-- `NoteManager::select_notes_for_spending` (src/notes.rs:367). -/
def select_notes_for_spending (m : NoteManager) (amount : Nat)
    (strategy : Option NoteSelectionStrategy) : NozyResult (List ShieldedNote) :=
  let strat := strategy.getD m.config.default_strategy
  let sorted := sorted_unspent m strat
  let out := greedy_select amount sorted 0
  if out.2 < amount then
    .error (.InsufficientFunds
      ("Insufficient funds. Required: " ++ toString amount ++
        ", Available: " ++ toString out.2))
  else
    .ok out.1

/-- `NoteManager::generate_note_nullifier` (src/notes.rs:453): blake2b-256
over commitment, randomness and a pool nullifier tag. -/
def generate_note_nullifier (hm : HashModel) (note : ShieldedNote) : List Nat :=
  hm.blake (note.commitment ++ note.randomness ++
    strBytes (match note.note_type with
      | .Orchard => "orchard_nullifier"
      | .Sapling => "sapling_nullifier"))

/-- The mutation `mark_note_spent` applies to the stored entry: set
`spent_at_height` and `nullifier`, leave every other field alone. -/
def spendUpdate (spent_height : Nat) (nullifier : List Nat) (n : ShieldedNote) :
    ShieldedNote :=
  { n with spent_at_height := some spent_height, nullifier := some nullifier }

/-- `NoteManager::mark_note_spent` (src/notes.rs:432): no-op `Ok` for an
unknown id; otherwise recompute the nullifier from the stored note and set
`spent_at_height` and `nullifier`. -/
def mark_note_spent (hm : HashModel) (m : NoteManager) (note_id : String)
    (spent_height : Nat) : NozyResult NoteManager :=
  match alLookup m.notes note_id with
  | none => .ok m
  | some note_data =>
    .ok { m with
            notes := alUpdate m.notes note_id
              (spendUpdate spent_height (generate_note_nullifier hm note_data)) }

/-- The `for note_id in small_note_ids` loop of `consolidate_notes`
(src/notes.rs:526). -/
def mark_all_spent (hm : HashModel) : NoteManager → List String →
    NozyResult NoteManager
  | m, [] => .ok m
  | m, id :: rest =>
    match mark_note_spent hm m id 0 with
    | .error e => .error e
    | .ok m1 => mark_all_spent hm m1 rest

/-- `NoteManager::consolidate_notes` (src/notes.rs:482).  The source indexes
`notes_to_consolidate[0]`, which is reachable only with at least two small
notes, so `headD` stands for that index. -/
def consolidate_notes (hm : HashModel) (m : NoteManager) (randomness : List Nat) :
    NozyResult (List ShieldedNote × NoteManager) :=
  if !m.config.enable_consolidation then .ok ([], m)
  else
    let small_note_ids :=
      ((m.notes.map Prod.snd).filter (fun note =>
        note.nullifier.isNone &&
          decide (note.value < m.config.min_consolidation_value))).map
        (fun note => note.id)
    if small_note_ids.length < 2 then .ok ([], m)
    else
      let small_notes := small_note_ids.filterMap (fun id => alLookup m.notes id)
      let sorted := small_notes.mergeSort (fun a b => decide (a.value ≤ b.value))
      let notes_to_consolidate :=
        sorted.take (min m.config.max_consolidation_notes small_notes.length)
      let total_value := (notes_to_consolidate.map (fun note => note.value)).sum
      let recipient := (notes_to_consolidate.headD default).recipient_address
      match create_note hm m total_value recipient none .Orchard 0 none randomness with
      | .error e => .error e
      | .ok (note, m1) =>
        match mark_all_spent hm m1 small_note_ids with
        | .error e => .error e
        | .ok m2 => .ok ([note], m2)

/-- The `NoteManager` mutators (src/notes.rs): these four methods are the only
ones that change the manager; `create` and `consolidate` carry the externally
drawn randomness. -/
inductive NoteOp where
  | create (value : Nat) (recipient : String) (memo : Option (List Nat))
      (note_type : NoteType) (height : Nat) (txh : Option (List Nat))
      (randomness : List Nat)
  | addNote (note : ShieldedNote)
  | markSpent (id : String) (height : Nat)
  | consolidate (randomness : List Nat)

/-- Run one mutator; on `Err` (which in fact never occurs) the state is the
caller's unchanged manager. -/
def applyOp (hm : HashModel) (m : NoteManager) : NoteOp → NoteManager
  | .create v r mo nt h t rand =>
    match create_note hm m v r mo nt h t rand with
    | .ok out => out.2
    | .error _ => m
  | .addNote n =>
    match add_note m n with
    | .ok m1 => m1
    | .error _ => m
  | .markSpent id h =>
    match mark_note_spent hm m id h with
    | .ok m1 => m1
    | .error _ => m
  | .consolidate rand =>
    match consolidate_notes hm m rand with
    | .ok out => out.2
    | .error _ => m

/-- A sequence of mutators applied in order. -/
def runOps (hm : HashModel) (m0 : NoteManager) (ops : List NoteOp) : NoteManager :=
  ops.foldl (applyOp hm) m0

/-- `AddressType` from src/hd_wallet.rs. -/
inductive AddressType where
  | Orchard
  | Sapling
  | Unified
deriving DecidableEq, Repr, Inhabited

/-- `SignatureAlgorithm` from src/transaction_signer.rs. -/
inductive SignatureAlgorithm where
  | RedPallas
  | RedJubjub
  | EdDSA
deriving DecidableEq, Repr, Inhabited

/-- `ShieldedInput` from src/transaction_signer.rs. -/
structure ShieldedInput where
  note : ShieldedNote
  merkle_path : List (List Nat)
  position : Nat
deriving DecidableEq, Repr, Inhabited

/-- `ShieldedOutput` from src/transaction_signer.rs. -/
structure ShieldedOutput where
  address : String
  value : Nat
  memo : Option (List Nat)
  address_type : AddressType
deriving DecidableEq, Repr, Inhabited

/-- `TransactionSignature` from src/transaction_signer.rs. -/
structure TransactionSignature where
  signature : List Nat
  public_key : List Nat
  algorithm : SignatureAlgorithm
  tx_hash : List Nat
deriving DecidableEq, Repr, Inhabited

/-- `SignedTransaction` from src/transaction_signer.rs. -/
structure SignedTransaction where
  inputs : List ShieldedInput
  outputs : List ShieldedOutput
  fee : Nat
  signatures : List TransactionSignature
  tx_hash : List Nat
  expiry_height : Nat
  version : Nat
  change_output : Option ShieldedOutput
deriving DecidableEq, Repr, Inhabited

/-- The external `ed25519_dalek` primitive, abstract over byte lists:
`sign sk m` is `SigningKey::sign`, `pkOf sk` the bytes of
`SigningKey::verifying_key`, `pkValid` whether `VerifyingKey::from_bytes`
accepts the bytes, and `verify pk m s` whether `VerifyingKey::verify`
succeeds. -/
structure SigScheme where
  sign : List Nat → List Nat → List Nat
  pkOf : List Nat → List Nat
  pkValid : List Nat → Bool
  verify : List Nat → List Nat → List Nat → Bool

/-- The `HDWallet` as the signer sees it: `get_master_key` (src/hd_wallet.rs:
177) deterministically decrypts the stored key under a password — the AES /
PBKDF2 pipeline is outside the core, so the password-to-key function stays
abstract.  The 32 bytes are `XPrv::to_bytes` of the master key. -/
structure HDWalletM where
  masterKey : String → NozyResult (List Nat)

/-- `HDWallet::get_change_address` (src/hd_wallet.rs:266): an Orchard-tagged
hex digest of a fixed change derivation path. -/
def get_change_address (hm : HashModel) : String :=
  "o" ++ hexEncode ((hm.sha (strBytes "m/44'/133'/0'/1/0")).take 16)

/-- `TransactionSigner` from src/transaction_signer.rs; the signing-key cache
maps derivation paths to `SigningKey` bytes. -/
structure TransactionSignerM where
  hd_wallet : HDWalletM
  signing_keys : List (String × List Nat)
  note_manager : NoteManager

/-- `TransactionSigner::calculate_transaction_hash`
(src/transaction_signer.rs:177): blake2b-256 over inputs (commitment and
little-endian position), outputs (address bytes, little-endian value, memo
when present), fee and expiry height. -/
def calculate_transaction_hash (hm : HashModel) (inputs : List ShieldedInput)
    (outputs : List ShieldedOutput) (fee : Nat) (expiry_height : Nat) : List Nat :=
  hm.blake
    ((inputs.map (fun i => i.note.commitment ++ natLeBytes8 i.position)).flatten ++
      (outputs.map (fun o =>
        strBytes o.address ++ natLeBytes8 o.value ++ o.memo.getD [])).flatten ++
      natLeBytes8 fee ++ natLeBytes8 expiry_height)

/-- `TransactionSigner::build_transaction_with_notes`
(src/transaction_signer.rs:103). -/
def build_transaction_with_notes (hm : HashModel) (st : TransactionSignerM)
    (recipient_address : String) (amount : Nat) (fee : Nat)
    (memo : Option (List Nat)) (expiry_height : Nat)
    (strategy : Option NoteSelectionStrategy) : NozyResult SignedTransaction :=
  let total_needed := amount + fee
  match select_notes_for_spending st.note_manager total_needed strategy with
  | .error e => .error e
  | .ok notes_to_spend =>
    let total_input := (notes_to_spend.map (fun note => note.value)).sum
    let change_amount := total_input - total_needed
    let inputs := notes_to_spend.map (fun note =>
      { note := note
        merkle_path := note.merkle_path.getD []
        position := note.position.getD 0 : ShieldedInput })
    let recipient_output : ShieldedOutput :=
      { address := recipient_address
        value := amount
        memo := memo
        address_type := .Orchard }
    let change_output : Option ShieldedOutput :=
      if change_amount > 0 then
        some { address := get_change_address hm
               value := change_amount
               memo := none
               address_type := .Orchard }
      else none
    let outputs :=
      match change_output with
      | some change => [recipient_output, change]
      | none => [recipient_output]
    let txh := calculate_transaction_hash hm inputs outputs fee expiry_height
    .ok { inputs := inputs
          outputs := outputs
          fee := fee
          signatures := []
          tx_hash := txh
          expiry_height := expiry_height
          version := 5
          change_output := change_output }

/-- `TransactionSigner::get_derivation_path_for_note`
(src/transaction_signer.rs:242). -/
def get_derivation_path_for_note (note : ShieldedNote) : String :=
  (match note.note_type with
    | .Orchard => "m/44'/133'/0'/0"
    | .Sapling => "m/44'/133'/0'/1") ++ "/" ++ toString (note.position.getD 0)

/-- `TransactionSigner::derive_signing_key` (src/transaction_signer.rs:254):
answer from the cache when possible; otherwise decrypt the master key and use
its bytes directly (`SigningKey::from_bytes(master_key.to_bytes())` — the
derivation path never enters the key material), then cache them under the
path. -/
def derive_signing_key (st : TransactionSignerM) (derivation_path : String)
    (password : String) : NozyResult (List Nat × TransactionSignerM) :=
  match alLookup st.signing_keys derivation_path with
  | some key => .ok (key, st)
  | none =>
    match st.hd_wallet.masterKey password with
    | .error e => .error e
    | .ok master_bytes =>
      .ok (master_bytes,
        { st with signing_keys := alInsert st.signing_keys derivation_path master_bytes })

/-- The per-input record pushed by `sign_transaction_with_notes`. -/
def mkSignature (S : SigScheme) (key : List Nat) (txh : List Nat) :
    TransactionSignature :=
  { signature := S.sign key txh
    public_key := S.pkOf key
    algorithm := .EdDSA
    tx_hash := txh }

/-- The `for (i, input) in transaction.inputs` loop of
`sign_transaction_with_notes` (src/transaction_signer.rs:219), threading the
signing-key cache. -/
def sign_loop (S : SigScheme) (password : String) (txh : List Nat) :
    List ShieldedInput → TransactionSignerM →
    NozyResult (List TransactionSignature × TransactionSignerM)
  | [], st => .ok ([], st)
  | input :: rest, st =>
    match derive_signing_key st (get_derivation_path_for_note input.note) password with
    | .error e => .error e
    | .ok (key, st1) =>
      match sign_loop S password txh rest st1 with
      | .error e => .error e
      | .ok (sigs, st2) => .ok (mkSignature S key txh :: sigs, st2)

/-- `TransactionSigner::sign_transaction_with_notes`
(src/transaction_signer.rs:211). -/
def sign_transaction_with_notes (S : SigScheme) (st : TransactionSignerM)
    (transaction : SignedTransaction) (password : String) :
    NozyResult (SignedTransaction × TransactionSignerM) :=
  match sign_loop S password transaction.tx_hash transaction.inputs st with
  | .error e => .error e
  | .ok (signatures, st1) =>
    .ok ({ transaction with signatures := signatures }, st1)

/-- The per-signature body of the `verify_transaction` loop
(src/transaction_signer.rs:278): length conversions and
`VerifyingKey::from_bytes` propagate errors, a failed
`verify` yields `Ok(false)`. -/
def verify_sigs (S : SigScheme) (txh : List Nat) :
    List TransactionSignature → NozyResult Bool
  | [] => .ok true
  | s :: rest =>
    if s.public_key.length ≠ 32 then
      .error (.InvalidOperation "Invalid public key length")
    else if s.signature.length ≠ 64 then
      .error (.InvalidOperation "Invalid signature length")
    else if !S.pkValid s.public_key then
      .error (.InvalidOperation "Signature error: invalid public key")
    else if S.verify s.public_key txh s.signature then
      verify_sigs S txh rest
    else
      .ok false

/-- `TransactionSigner::verify_transaction` (src/transaction_signer.rs:273). -/
def verify_transaction (S : SigScheme) (transaction : SignedTransaction) :
    NozyResult Bool :=
  if transaction.signatures.length ≠ transaction.inputs.length then .ok false
  else verify_sigs S transaction.tx_hash transaction.signatures

/-- A transaction with byte `j` of signature `i` replaced by `b` (identity
when there is no signature `i`). -/
def set_sig_byte (tx : SignedTransaction) (i j b : Nat) : SignedTransaction :=
  match tx.signatures[i]? with
  | none => tx
  | some s =>
    { tx with signatures :=
        tx.signatures.set i { s with signature := s.signature.set j b } }

/-- A transaction with byte `j` of public key `i` replaced by `b` (identity
when there is no signature `i`). -/
def set_pk_byte (tx : SignedTransaction) (i j b : Nat) : SignedTransaction :=
  match tx.signatures[i]? with
  | none => tx
  | some s =>
    { tx with signatures :=
        tx.signatures.set i { s with public_key := s.public_key.set j b } }

/-- The root-consistency invariant of the commitment tree: the stored `root`
is the recomputed hash-tree root of the current leaf sequence. -/
def RootOk (hm : HashModel) (m : NoteManager) : Prop :=
  m.commitment_tree.root = calculate_tree_root hm m.commitment_tree.nodes

/-- A concrete instance of the hash primitives, used to evaluate the
embedding at concrete inputs. -/
def hmT : HashModel :=
  { blake := fun _ => List.replicate 32 2, sha := fun _ => List.replicate 32 3 }

/-- A hash instance whose digest of the 32 zero bytes differs from the raw 32
zero bytes, as any preimage-resistant hash's does. -/
def hmOnes : HashModel :=
  { blake := fun _ => List.replicate 32 1, sha := fun _ => List.replicate 32 1 }

/-- Concrete fresh randomness used in concrete evaluations. -/
def rand32 : List Nat := List.replicate 32 4

/-- A concrete unspent 100-unit Orchard note. -/
def noteA : ShieldedNote :=
  { id := "n1"
    note_type := .Orchard
    value := 100
    commitment := List.replicate 32 9
    nullifier := none
    recipient_address := "addr1"
    memo := none
    randomness := List.replicate 32 7
    created_at_height := 10
    spent_at_height := none
    tx_hash := none
    merkle_path := some []
    position := some 0 }

/-- A concrete manager holding the single unspent note `noteA`. -/
def cm1 : NoteManager :=
  { newManager true with notes := [("n1", noteA)] }

/-- A concrete manager whose commitment tree already holds `2 ^ 32` leaves
(the capacity `2 ^ depth` for the fixed depth 32). -/
def fullTreeManager : NoteManager :=
  { newManager true with
      commitment_tree :=
        { depth := 32
          size := 2 ^ 32
          root := List.replicate 32 0
          nodes := List.replicate (2 ^ 32) (List.replicate 32 0) } }

/-- A concrete signature-scheme instance with perfect correctness and perfect
rejection of modified signatures and keys, used to evaluate the signer
embedding at concrete inputs. -/
def S0 : SigScheme :=
  { sign := fun _ _ => List.replicate 64 0
    pkOf := fun _ => List.replicate 32 0
    pkValid := fun _ => true
    verify := fun pk _ s => decide (pk.length = 32 ∧ s = pk ++ pk) }

/-- A concrete wallet whose master key resolves under the password `pw`. -/
def wallet0 : HDWalletM :=
  { masterKey := fun password =>
      if password = "pw" then .ok (List.replicate 32 5)
      else .error (.InvalidOperation "Decryption failed") }

/-- A concrete signer over `wallet0` and the one-note ledger `cm1`, with an
empty signing-key cache. -/
def signer0 : TransactionSignerM :=
  { hd_wallet := wallet0, signing_keys := [], note_manager := cm1 }

/-- A recorded signature that `verify_transaction` can process without an
error: the public key is 32 bytes and accepted by `VerifyingKey::from_bytes`,
the signature is 64 bytes. -/
abbrev WFSig (S : SigScheme) (s : TransactionSignature) : Prop :=
  s.public_key.length = 32 ∧ s.signature.length = 64 ∧
    S.pkValid s.public_key = true

/-- A concrete transaction input around `noteA`. -/
def input0 : ShieldedInput :=
  { note := noteA, merkle_path := [], position := 0 }

/-- A concrete transaction skeleton with one input and no signature. -/
def tx0 : SignedTransaction :=
  { inputs := [input0]
    outputs := []
    fee := 10
    signatures := []
    tx_hash := List.replicate 32 8
    expiry_height := 99
    version := 5
    change_output := none }

/-- `tx0` with one well-formed signature that `S0` accepts. -/
def txGood : SignedTransaction :=
  { tx0 with signatures :=
      [{ signature := List.replicate 64 0
         public_key := List.replicate 32 0
         algorithm := .EdDSA
         tx_hash := List.replicate 32 8 }] }

/-- `tx0` with one well-formed signature that `S0` rejects. -/
def txBad : SignedTransaction :=
  { tx0 with signatures :=
      [{ signature := List.replicate 64 1
         public_key := List.replicate 32 0
         algorithm := .EdDSA
         tx_hash := List.replicate 32 8 }] }

/-- `tx0` with one signature whose recorded public key is empty (not 32
bytes). -/
def txMalformed : SignedTransaction :=
  { tx0 with signatures :=
      [{ signature := List.replicate 64 0
         public_key := []
         algorithm := .EdDSA
         tx_hash := List.replicate 32 8 }] }

theorem alLookup_alUpdate {α : Type} (l : List (String × α)) (k : String) (f : α → α) :
    alLookup (alUpdate l k f) k = (alLookup l k).map f := by
  induction l with
  | nil => rfl
  | cons hd tl ih =>
    obtain ⟨a, v⟩ := hd
    by_cases h : a = k <;> simp [alUpdate, alLookup, h, ih]

theorem greedy_select_snd (amount : Nat) :
    ∀ (l : List ShieldedNote) (total : Nat),
      (greedy_select amount l total).2 =
        total + ((greedy_select amount l total).1.map (fun n => n.value)).sum := by
  intro l
  induction l with
  | nil => intro total; simp [greedy_select]
  | cons note rest ih =>
    intro total
    by_cases h : total ≥ amount
    · simp [greedy_select, h]
    · simp only [greedy_select, if_neg h, List.map_cons, List.sum_cons]
      rw [ih (total + note.value)]
      omega

theorem greedy_select_exhausts (amount : Nat) :
    ∀ (l : List ShieldedNote) (total : Nat),
      amount ≤ (greedy_select amount l total).2 ∨
        (greedy_select amount l total).1 = l := by
  intro l
  induction l with
  | nil => intro total; right; rfl
  | cons note rest ih =>
    intro total
    by_cases h : total ≥ amount
    · left; simp [greedy_select, h]
    · rcases ih (total + note.value) with h2 | h2
      · left; simpa [greedy_select, if_neg h] using h2
      · right; simp [greedy_select, if_neg h, h2]

theorem sorted_unspent_perm (m : NoteManager) (strategy : NoteSelectionStrategy) :
    (sorted_unspent m strategy).Perm (get_unspent_notes m) := by
  cases strategy <;>
    simp only [sorted_unspent] <;>
    first
      | exact List.mergeSort_perm _ _
      | exact List.Perm.refl _

theorem sorted_unspent_value_sum (m : NoteManager) (strategy : NoteSelectionStrategy) :
    ((sorted_unspent m strategy).map (fun n => n.value)).sum =
      ((get_unspent_notes m).map (fun n => n.value)).sum :=
  ((sorted_unspent_perm m strategy).map (fun n => n.value)).sum_eq

theorem select_ok_sum_ge (m : NoteManager) (amount : Nat)
    (strategy : Option NoteSelectionStrategy) (sel : List ShieldedNote)
    (hsel : select_notes_for_spending m amount strategy = .ok sel) :
    amount ≤ (sel.map (fun n => n.value)).sum := by
  set strat := strategy.getD m.config.default_strategy with hstrat
  set sorted := sorted_unspent m strat with hsorted
  have hsnd := greedy_select_snd amount sorted 0
  by_cases h : (greedy_select amount sorted 0).2 < amount
  · simp [select_notes_for_spending, ← hstrat, ← hsorted, h] at hsel
  · simp only [select_notes_for_spending, ← hstrat, ← hsorted, if_neg h,
      Except.ok.injEq] at hsel
    rw [← hsel]
    omega

theorem select_error_sum_lt (m : NoteManager) (amount : Nat)
    (strategy : Option NoteSelectionStrategy) (e : NozyError)
    (he : select_notes_for_spending m amount strategy = .error e) :
    ((get_unspent_notes m).map (fun n => n.value)).sum < amount := by
  set strat := strategy.getD m.config.default_strategy with hstrat
  set sorted := sorted_unspent m strat with hsorted
  have hsnd := greedy_select_snd amount sorted 0
  by_cases h : (greedy_select amount sorted 0).2 < amount
  · have hall : (greedy_select amount sorted 0).1 = sorted := by
      rcases greedy_select_exhausts amount sorted 0 with h2 | h2
      · omega
      · exact h2
    have : ((sorted.map (fun n => n.value)).sum) < amount := by
      rw [← hall]
      omega
    calc ((get_unspent_notes m).map (fun n => n.value)).sum
        = ((sorted.map (fun n => n.value)).sum) :=
          (sorted_unspent_value_sum m strat).symm
      _ < amount := this
  · simp [select_notes_for_spending, ← hstrat, ← hsorted, h] at he

theorem select_ok_of_sum_ge (m : NoteManager) (amount : Nat)
    (strategy : Option NoteSelectionStrategy)
    (hsum : amount ≤ ((get_unspent_notes m).map (fun n => n.value)).sum) :
    ∃ sel, select_notes_for_spending m amount strategy = .ok sel := by
  cases hs : select_notes_for_spending m amount strategy with
  | error e =>
    have := select_error_sum_lt m amount strategy e hs
    omega
  | ok sel => exact ⟨sel, rfl⟩

/-- C1.  For every ledger state, amount and (optional) strategy: a successful
`select_notes_for_spending` returns notes whose values sum to at least
`amount`, and a failure implies the values of all unspent notes sum to less
than `amount`. -/
theorem select_notes_sufficiency (m : NoteManager) (amount : Nat)
    (strategy : Option NoteSelectionStrategy) :
    (∀ sel, select_notes_for_spending m amount strategy = .ok sel →
      amount ≤ (sel.map (fun n => n.value)).sum) ∧
    (∀ e, select_notes_for_spending m amount strategy = .error e →
      ((get_unspent_notes m).map (fun n => n.value)).sum < amount) :=
  ⟨fun sel hsel => select_ok_sum_ge m amount strategy sel hsel,
    fun e he => select_error_sum_lt m amount strategy e he⟩

/-- C8.  A failed selection always carries the insufficient-funds error whose
message is built from the required amount and the sum of the values of all
unspent notes in the ledger — greedy accumulation has scanned the whole
unspent set before failing, so the reported available amount is the full
unspent sum, never a partial one. -/
theorem insufficient_funds_error (m : NoteManager) (amount : Nat)
    (strategy : Option NoteSelectionStrategy) (e : NozyError)
    (h : select_notes_for_spending m amount strategy = .error e) :
    e = .InsufficientFunds
      ("Insufficient funds. Required: " ++ toString amount ++ ", Available: " ++
        toString (((get_unspent_notes m).map (fun n => n.value)).sum)) := by
  set strat := strategy.getD m.config.default_strategy with hstrat
  set sorted := sorted_unspent m strat with hsorted
  by_cases hlt : (greedy_select amount sorted 0).2 < amount
  · have hall : (greedy_select amount sorted 0).1 = sorted := by
      rcases greedy_select_exhausts amount sorted 0 with h2 | h2
      · omega
      · exact h2
    have hsnd := greedy_select_snd amount sorted 0
    have htot : (greedy_select amount sorted 0).2 =
        ((get_unspent_notes m).map (fun n => n.value)).sum := by
      rw [hsnd, hall, sorted_unspent_value_sum m strat]
      omega
    simp only [select_notes_for_spending, ← hstrat, ← hsorted, if_pos hlt,
      Except.error.injEq] at h
    rw [← h, htot]
  · simp [select_notes_for_spending, ← hstrat, ← hsorted, hlt] at h

/-- C8's hypothesis discharged at the one-note ledger `cm1` and amount 150:
the error carries required 150 and available 100 (the full unspent sum). -/
theorem insufficient_funds_error_witness :
    NozyError.InsufficientFunds "Insufficient funds. Required: 150, Available: 100" =
      .InsufficientFunds
        ("Insufficient funds. Required: " ++ toString 150 ++ ", Available: " ++
          toString (((get_unspent_notes cm1).map (fun n => n.value)).sum)) :=
  insufficient_funds_error cm1 150 (some .Balanced) _ rfl

/-- C7.  Marking a present note spent twice stores the same recomputed
nullifier both times (the nullifier depends only on commitment, randomness
and note type, none of which the spend mutation touches); marking an unknown
id succeeds and leaves the manager unchanged. -/
theorem mark_note_spent_idempotent (hm : HashModel) (m : NoteManager)
    (note_id : String) (h1 h2 : Nat) :
    (∀ note, alLookup m.notes note_id = some note →
      ∃ m1 m2,
        mark_note_spent hm m note_id h1 = .ok m1 ∧
        mark_note_spent hm m1 note_id h2 = .ok m2 ∧
        (alLookup m1.notes note_id).map (fun n => n.nullifier) =
          some (some (generate_note_nullifier hm note)) ∧
        (alLookup m2.notes note_id).map (fun n => n.nullifier) =
          some (some (generate_note_nullifier hm note))) ∧
    (alLookup m.notes note_id = none → mark_note_spent hm m note_id h1 = .ok m) := by
  constructor
  · intro note hnote
    set ν := generate_note_nullifier hm note with hν
    set u1 := alUpdate m.notes note_id (spendUpdate h1 ν) with hu1
    refine ⟨{ m with notes := u1 },
      { m with notes := alUpdate u1 note_id (spendUpdate h2 ν) }, ?_, ?_, ?_, ?_⟩
    · simp only [mark_note_spent, hnote, hν, hu1]
    · simp only [mark_note_spent, hu1, alLookup_alUpdate, hnote, Option.map_some']
      rfl
    · simp only [hu1, alLookup_alUpdate, hnote, Option.map_some']
      rfl
    · simp only [hu1, alLookup_alUpdate, hnote, Option.map_some']
      rfl
  · intro hnone
    simp only [mark_note_spent, hnone]

/-- C5 as the code has it: an empty tree's root is the raw 32 zero bytes
(no hash is applied), and a single-leaf tree's root is that leaf unchanged. -/
theorem tree_root_empty_and_single_leaf (hm : HashModel) (leaf : List Nat) :
    calculate_tree_root hm [] = List.replicate 32 0 ∧
      calculate_tree_root hm [leaf] = leaf := by
  constructor
  · rfl
  · simp [calculate_tree_root, rootLoop]

/-- C5 counterexample: with a hash instance whose digest of the 32 zero bytes
is not the zero vector (as for blake2b), the empty root is still the raw zero
vector, so it does not equal the hash of the 32 zero bytes. -/
theorem empty_root_is_raw_zero_bytes :
    calculate_tree_root hmOnes [] = List.replicate 32 0 ∧
      hmOnes.blake (List.replicate 32 0) ≠ List.replicate 32 0 := by
  exact ⟨rfl, by decide⟩

/-- C4 as the code has it: `create_note` performs no capacity check and
cannot fail; whatever the tree's current size, it appends the commitment and
returns `Ok`. -/
theorem create_note_always_succeeds (hm : HashModel) (m : NoteManager)
    (value : Nat) (recipient_address : String) (memo : Option (List Nat))
    (note_type : NoteType) (block_height : Nat) (tx_hash : Option (List Nat))
    (randomness : List Nat) :
    ∃ note m1,
      create_note hm m value recipient_address memo note_type block_height
          tx_hash randomness = .ok (note, m1) ∧
        m1.commitment_tree.nodes = m.commitment_tree.nodes ++ [note.commitment] :=
  ⟨_, _, rfl, rfl⟩

/-- C4 counterexample: on a tree that already holds `2 ^ 32` leaves (depth is
32), `create_note` still returns `Ok` — it does not fail with any `TreeFull`
error (no such variant even exists in `NozyError`). -/
theorem create_note_on_full_tree_succeeds :
    (create_note hmT fullTreeManager 1 "a" none .Orchard 0 none rand32).isOk = true :=
  rfl

theorem mark_note_spent_never_errors (hm : HashModel) (m : NoteManager)
    (note_id : String) (h : Nat) (e : NozyError) :
    mark_note_spent hm m note_id h = .error e → False := by
  cases heq : alLookup m.notes note_id <;> simp [mark_note_spent, heq]

theorem mark_note_spent_tree_of_ok (hm : HashModel) (m : NoteManager)
    (note_id : String) (h : Nat) (m1 : NoteManager)
    (hok : mark_note_spent hm m note_id h = .ok m1) :
    m1.commitment_tree = m.commitment_tree := by
  cases heq : alLookup m.notes note_id with
  | none =>
    simp only [mark_note_spent, heq, Except.ok.injEq] at hok
    rw [← hok]
  | some note =>
    simp only [mark_note_spent, heq, Except.ok.injEq] at hok
    rw [← hok]

theorem mark_all_spent_never_errors (hm : HashModel) :
    ∀ (ids : List String) (m : NoteManager) (e : NozyError),
      mark_all_spent hm m ids = .error e → False := by
  intro ids
  induction ids with
  | nil => intro m e h; simp [mark_all_spent] at h
  | cons id rest ih =>
    intro m e h
    cases hmk : mark_note_spent hm m id 0 with
    | error e1 => exact mark_note_spent_never_errors hm m id 0 e1 hmk
    | ok m1 =>
      rw [mark_all_spent, hmk] at h
      exact ih m1 e h

theorem mark_all_spent_tree_of_ok (hm : HashModel) :
    ∀ (ids : List String) (m m1 : NoteManager),
      mark_all_spent hm m ids = .ok m1 →
        m1.commitment_tree = m.commitment_tree := by
  intro ids
  induction ids with
  | nil =>
    intro m m1 h
    simp only [mark_all_spent, Except.ok.injEq] at h
    rw [← h]
  | cons id rest ih =>
    intro m m1 h
    cases hmk : mark_note_spent hm m id 0 with
    | error e1 => exact absurd hmk (mark_note_spent_never_errors hm m id 0 e1)
    | ok m2 =>
      rw [mark_all_spent, hmk] at h
      exact (ih m2 m1 h).trans (mark_note_spent_tree_of_ok hm m id 0 m2 hmk)

theorem consolidate_notes_spec (hm : HashModel) (m : NoteManager)
    (randomness : List Nat) :
    ∃ out, consolidate_notes hm m randomness = .ok out ∧
      (out.2.commitment_tree = m.commitment_tree ∨
        ∃ c, out.2.commitment_tree.nodes = m.commitment_tree.nodes ++ [c] ∧
          out.2.commitment_tree.root =
            calculate_tree_root hm (m.commitment_tree.nodes ++ [c])) := by
  unfold consolidate_notes
  split
  · exact ⟨([], m), rfl, Or.inl rfl⟩
  · dsimp only
    split
    · exact ⟨([], m), rfl, Or.inl rfl⟩
    · split
      case _ e heq =>
        exact absurd heq (by simp [create_note, add_note_to_tree])
      case _ note m1 heq =>
        simp only [create_note, add_note_to_tree, Except.ok.injEq,
          Prod.mk.injEq] at heq
        obtain ⟨hnote, hm1⟩ := heq
        split
        case _ e2 heq2 =>
          exact absurd heq2 (mark_all_spent_never_errors hm _ _ _)
        case _ m2 heq2 =>
          have htree := mark_all_spent_tree_of_ok hm _ _ _ heq2
          refine ⟨([note], m2), rfl, Or.inr ⟨note.commitment, ?_, ?_⟩⟩
          · rw [htree, ← hm1, ← hnote]
          · rw [htree, ← hm1, ← hnote]

theorem applyOp_spec (hm : HashModel) (m : NoteManager) (op : NoteOp) :
    (RootOk hm m → RootOk hm (applyOp hm m op)) ∧
      m.commitment_tree.nodes <+: (applyOp hm m op).commitment_tree.nodes := by
  cases op with
  | create v r mo nt h t rand =>
    cases hcr : create_note hm m v r mo nt h t rand with
    | error e =>
      exact absurd hcr (by simp [create_note, add_note_to_tree])
    | ok out =>
      have hcr2 := hcr
      simp only [create_note, add_note_to_tree, Except.ok.injEq] at hcr2
      simp only [applyOp, hcr]
      rw [← hcr2]
      exact ⟨fun _ => rfl, List.prefix_append _ _⟩
  | addNote n =>
    exact ⟨fun h => h, List.prefix_refl _⟩
  | markSpent id h =>
    cases hmk : mark_note_spent hm m id h with
    | error e => exact absurd hmk (mark_note_spent_never_errors hm m id h e)
    | ok m1 =>
      have htree := mark_note_spent_tree_of_ok hm m id h m1 hmk
      simp only [applyOp, hmk]
      unfold RootOk
      rw [htree]
      exact ⟨fun h => h, List.prefix_refl _⟩
  | consolidate rand =>
    obtain ⟨out, hc, hdisj⟩ := consolidate_notes_spec hm m rand
    simp only [applyOp, hc]
    rcases hdisj with heq | ⟨c, hn, hr⟩
    · unfold RootOk
      rw [heq]
      exact ⟨fun h => h, List.prefix_refl _⟩
    · refine ⟨fun _ => ?_, ?_⟩
      · unfold RootOk
        rw [hr, hn]
      · rw [hn]
        exact List.prefix_append _ _

theorem runOps_rootOk (hm : HashModel) (ops : List NoteOp) :
    ∀ m, RootOk hm m → RootOk hm (runOps hm m ops) := by
  induction ops with
  | nil => intro m h; exact h
  | cons op rest ih =>
    intro m h
    exact ih (applyOp hm m op) ((applyOp_spec hm m op).1 h)

theorem runOps_nodes_prefix (hm : HashModel) (ops : List NoteOp) :
    ∀ m, m.commitment_tree.nodes <+: (runOps hm m ops).commitment_tree.nodes := by
  induction ops with
  | nil => intro m; exact List.prefix_refl _
  | cons op rest ih =>
    intro m
    exact ((applyOp_spec hm m op).2).trans (ih (applyOp hm m op))

theorem newManager_rootOk (hm : HashModel) (b : Bool) : RootOk hm (newManager b) :=
  rfl

/-- C9.  After any sequence of manager mutations starting from a fresh
manager, the stored root is the recomputed hash-tree root of the current leaf
sequence, and the leaf sequence reached so far is a prefix of the one reached
after any further mutations — so the position (index) of every inserted leaf
never changes. -/
theorem commitment_tree_invariant (hm : HashModel) (b : Bool)
    (ops more : List NoteOp) :
    (runOps hm (newManager b) ops).commitment_tree.root =
      calculate_tree_root hm (runOps hm (newManager b) ops).commitment_tree.nodes ∧
    (runOps hm (newManager b) ops).commitment_tree.nodes <+:
      (runOps hm (newManager b) (ops ++ more)).commitment_tree.nodes := by
  constructor
  · exact runOps_rootOk hm ops (newManager b) (newManager_rootOk hm b)
  · simp only [runOps, List.foldl_append]
    exact runOps_nodes_prefix hm more _

theorem verify_sigs_all_true (S : SigScheme) (txh : List Nat) :
    ∀ l : List TransactionSignature,
      (∀ s ∈ l, WFSig S s ∧ S.verify s.public_key txh s.signature = true) →
      verify_sigs S txh l = .ok true := by
  intro l
  induction l with
  | nil => intro _; rfl
  | cons s rest ih =>
    intro h
    obtain ⟨⟨h32, h64, hval⟩, hver⟩ := h s (by simp)
    simp only [verify_sigs, h32, h64, hval, hver, ne_eq, not_true_eq_false,
      if_false, Bool.not_true, if_true]
    simp only [reduceCtorEq, if_false]
    exact ih (fun x hx => h x (by simp [hx]))

theorem verify_sigs_mem_false (S : SigScheme) (txh : List Nat) :
    ∀ l : List TransactionSignature,
      (∀ s ∈ l, WFSig S s) →
      (∃ s ∈ l, S.verify s.public_key txh s.signature = false) →
      verify_sigs S txh l = .ok false := by
  intro l
  induction l with
  | nil => intro _ hex; simp at hex
  | cons s rest ih =>
    intro hwf hex
    obtain ⟨h32, h64, hval⟩ := hwf s (by simp)
    cases hv : S.verify s.public_key txh s.signature with
    | false =>
      simp only [verify_sigs, h32, h64, hval, hv, ne_eq, not_true_eq_false,
        if_false, Bool.not_true, Bool.false_eq_true, if_true]
    | true =>
      obtain ⟨s0, hs0, hs0f⟩ := hex
      rcases List.mem_cons.mp hs0 with rfl | hs0r
      · rw [hv] at hs0f
        exact absurd hs0f (by simp)
      · simp only [verify_sigs, h32, h64, hval, hv, ne_eq, not_true_eq_false,
          if_false, Bool.not_true, if_true]
        simp only [reduceCtorEq, if_false]
        exact ih (fun x hx => hwf x (by simp [hx])) ⟨s0, hs0r, hs0f⟩

theorem verify_sigs_set_false (S : SigScheme) (txh : List Nat) :
    ∀ (l : List TransactionSignature) (i : Nat) (sbad : TransactionSignature),
      (∀ s ∈ l, WFSig S s ∧ S.verify s.public_key txh s.signature = true) →
      i < l.length → WFSig S sbad →
      S.verify sbad.public_key txh sbad.signature = false →
      verify_sigs S txh (l.set i sbad) = .ok false := by
  intro l
  induction l with
  | nil => intro i sbad _ hi; simp at hi
  | cons s rest ih =>
    intro i sbad hall hi hwf hbad
    cases i with
    | zero =>
      obtain ⟨h32, h64, hval⟩ := hwf
      simp only [List.set]
      simp only [verify_sigs, h32, h64, hval, hbad, ne_eq, not_true_eq_false,
        if_false, Bool.not_true, Bool.false_eq_true, if_true]
    | succ n =>
      obtain ⟨⟨h32, h64, hval⟩, hver⟩ := hall s (by simp)
      simp only [List.set]
      simp only [verify_sigs, h32, h64, hval, hver, ne_eq, not_true_eq_false,
        if_false, Bool.not_true, if_true]
      simp only [reduceCtorEq, if_false]
      exact ih n sbad (fun x hx => hall x (by simp [hx])) (by simpa using hi)
        hwf hbad

/-- C6, amended.  When every recorded signature entry is well formed (32-byte
key accepted by the scheme, 64-byte signature), `verify_transaction` never
errors: it returns `Ok(false)` on a length mismatch, `Ok(false)` when some
signature fails to validate, and `Ok(true)` when all validate.  (With a
malformed entry it instead returns an `InvalidOperation` error, see the
counterexample.) -/
theorem verify_transaction_spec (S : SigScheme) (tx : SignedTransaction) :
    (tx.signatures.length ≠ tx.inputs.length → verify_transaction S tx = .ok false) ∧
    (tx.signatures.length = tx.inputs.length →
      (∀ s ∈ tx.signatures, WFSig S s) →
      ((∀ s ∈ tx.signatures, S.verify s.public_key tx.tx_hash s.signature = true) →
        verify_transaction S tx = .ok true) ∧
      ((∃ s ∈ tx.signatures, S.verify s.public_key tx.tx_hash s.signature = false) →
        verify_transaction S tx = .ok false)) := by
  constructor
  · intro h
    simp [verify_transaction, h]
  · intro hlen hwf
    constructor
    · intro hall
      rw [verify_transaction, if_neg (by simp [hlen])]
      exact verify_sigs_all_true S tx.tx_hash tx.signatures
        (fun s hs => ⟨hwf s hs, hall s hs⟩)
    · intro hex
      rw [verify_transaction, if_neg (by simp [hlen])]
      exact verify_sigs_mem_false S tx.tx_hash tx.signatures hwf hex

/-- C6's hypotheses discharged at concrete transactions over the scheme
instance `S0`: a signature-count mismatch gives `Ok(false)`, an all-valid
transaction gives `Ok(true)`, a failing well-formed signature gives
`Ok(false)`. -/
theorem verify_transaction_spec_witness :
    verify_transaction S0 tx0 = .ok false ∧
    verify_transaction S0 txGood = .ok true ∧
    verify_transaction S0 txBad = .ok false :=
  ⟨(verify_transaction_spec S0 tx0).1 (by decide),
    ((verify_transaction_spec S0 txGood).2 (by decide) (by decide)).1 (by decide),
    ((verify_transaction_spec S0 txBad).2 (by decide) (by decide)).2 (by decide)⟩

/-- C6 counterexample: a verification failure caused by a malformed recorded
public key (here: empty bytes) makes `verify_transaction` return an
`InvalidOperation` error — not `Ok(false)`. -/
theorem verify_transaction_error_on_malformed_key :
    verify_transaction S0 txMalformed =
      .error (.InvalidOperation "Invalid public key length") :=
  rfl

/-- C2, evaluated at the failing input: `create_note` on a fresh manager does
append the commitment (the tree gains one leaf), but the returned note still
has `position = none` and `merkle_path = none`, and the note was never stored
in the map either — `add_note_to_tree`'s `get_mut` back-fill finds nothing to
update because `create_note` never inserts the note into `self.notes`. -/
theorem create_note_backfill_is_lost :
    (create_note hmT (newManager true) 100 "addr" none .Orchard 0 none
          rand32).toOption.map
        (fun out =>
          (out.1.position, out.1.merkle_path, out.2.commitment_tree.nodes.length,
            alLookup out.2.notes out.1.id)) =
      some (none, none, 1, none) :=
  rfl

/-- C10.  Starting from an empty signing-key cache, deriving signing keys for
any two derivation paths under the same password yields byte-identical keys:
the derived key is always `SigningKey::from_bytes(master_key.to_bytes())`,
and the path only serves as cache key. -/
theorem derive_signing_key_path_independent (st : TransactionSignerM)
    (p1 p2 password : String) (k1 k2 : List Nat) (st1 st2 : TransactionSignerM)
    (hcache : st.signing_keys = [])
    (h1 : derive_signing_key st p1 password = .ok (k1, st1))
    (h2 : derive_signing_key st1 p2 password = .ok (k2, st2)) :
    k1 = k2 := by
  rw [derive_signing_key, hcache] at h1
  simp only [alLookup] at h1
  cases hmk : st.hd_wallet.masterKey password with
  | error e =>
    rw [hmk] at h1
    exact absurd h1 (by simp)
  | ok mk =>
    rw [hmk] at h1
    simp only [Except.ok.injEq, Prod.mk.injEq] at h1
    obtain ⟨hk1, hst1⟩ := h1
    subst hst1
    rw [derive_signing_key] at h2
    by_cases hp : p1 = p2
    · simp only [alInsert, alLookup, if_pos hp, Except.ok.injEq,
        Prod.mk.injEq] at h2
      rw [← hk1, ← h2.1]
    · simp only [alInsert, alLookup, if_neg hp] at h2
      rw [hmk] at h2
      simp only [Except.ok.injEq, Prod.mk.injEq] at h2
      rw [← hk1, ← h2.1]

/-- C10's hypotheses discharged at the concrete signer `signer0` (empty
cache) for two distinct paths under the password `pw`; both calls return the
master-key bytes. -/
theorem derive_signing_key_path_independent_witness :
    List.replicate 32 (5 : Nat) = List.replicate 32 5 :=
  derive_signing_key_path_independent signer0 "a" "b" "pw" _ _ _ _ rfl rfl rfl

theorem S0_sign_len : ∀ k msg, (S0.sign k msg).length = 64 := by
  intro k msg
  simp [S0]

theorem S0_pk_len : ∀ k, (S0.pkOf k).length = 32 := by
  intro k
  simp [S0]

theorem S0_pk_valid : ∀ k, S0.pkValid (S0.pkOf k) = true := fun _ => rfl

theorem S0_correct : ∀ k msg, S0.verify (S0.pkOf k) msg (S0.sign k msg) = true := by
  intro k msg
  show (decide ((List.replicate 32 (0 : Nat)).length = 32 ∧
    List.replicate 64 (0 : Nat) =
      List.replicate 32 (0 : Nat) ++ List.replicate 32 0)) = true
  decide

theorem S0_flip_sig : ∀ k msg j b, j < 64 → b ≠ (S0.sign k msg).getD j 0 →
    S0.verify (S0.pkOf k) msg ((S0.sign k msg).set j b) = false := by
  intro k msg j b hj hb
  have hbyte : (S0.sign k msg).getD j 0 = 0 := by
    show (List.replicate 64 (0 : Nat)).getD j 0 = 0
    rw [List.getD_eq_getElem?_getD, List.getElem?_replicate_of_lt hj]
    rfl
  rw [hbyte] at hb
  have hne : (List.replicate 64 (0 : Nat)).set j b ≠
      List.replicate 32 (0 : Nat) ++ List.replicate 32 0 := by
    intro hcontra
    have h1 : ((List.replicate 64 (0 : Nat)).set j b)[j]? = some b :=
      List.getElem?_set_self (by simpa using hj)
    have h2 : (List.replicate 32 (0 : Nat) ++ List.replicate 32 0)[j]? = some 0 := by
      rw [← List.replicate_add]
      exact List.getElem?_replicate_of_lt hj
    rw [hcontra, h2] at h1
    exact hb (by injection h1 with h3; exact h3.symm)
  show (decide ((List.replicate 32 (0 : Nat)).length = 32 ∧
    (List.replicate 64 (0 : Nat)).set j b =
      List.replicate 32 (0 : Nat) ++ List.replicate 32 0)) = false
  exact decide_eq_false (fun hcon => hne hcon.2)

theorem S0_flip_pk : ∀ k msg j b, j < 32 → b ≠ (S0.pkOf k).getD j 0 →
    S0.pkValid ((S0.pkOf k).set j b) = true ∧
      S0.verify ((S0.pkOf k).set j b) msg (S0.sign k msg) = false := by
  intro k msg j b hj hb
  refine ⟨rfl, ?_⟩
  have hbyte : (S0.pkOf k).getD j 0 = 0 := by
    show (List.replicate 32 (0 : Nat)).getD j 0 = 0
    rw [List.getD_eq_getElem?_getD, List.getElem?_replicate_of_lt hj]
    rfl
  rw [hbyte] at hb
  have hne : List.replicate 64 (0 : Nat) ≠
      (List.replicate 32 (0 : Nat)).set j b ++ (List.replicate 32 (0 : Nat)).set j b := by
    intro hcontra
    have h1 : ((List.replicate 32 (0 : Nat)).set j b ++
        (List.replicate 32 (0 : Nat)).set j b)[j]? = some b := by
      rw [List.getElem?_append_left (by simpa using hj)]
      exact List.getElem?_set_self (by simpa using hj)
    have h2 : (List.replicate 64 (0 : Nat))[j]? = some 0 :=
      List.getElem?_replicate_of_lt (by omega)
    rw [← hcontra, h2] at h1
    exact hb (by injection h1 with h3; exact h3.symm)
  show (decide (((List.replicate 32 (0 : Nat)).set j b).length = 32 ∧
    List.replicate 64 (0 : Nat) =
      (List.replicate 32 (0 : Nat)).set j b ++ (List.replicate 32 (0 : Nat)).set j b)) = false
  exact decide_eq_false (fun hcon => hne hcon.2)

theorem sign_loop_spec (S : SigScheme) (password : String) (txh : List Nat)
    (mk : List Nat) :
    ∀ (inputs : List ShieldedInput) (st : TransactionSignerM),
      st.hd_wallet.masterKey password = .ok mk →
      ∃ (ks : List (List Nat)) (st2 : TransactionSignerM),
        sign_loop S password txh inputs st =
          .ok (ks.map (fun k => mkSignature S k txh), st2) ∧
        ks.length = inputs.length ∧ st2.hd_wallet = st.hd_wallet := by
  intro inputs
  induction inputs with
  | nil =>
    intro st h
    exact ⟨[], st, rfl, rfl, rfl⟩
  | cons input rest ih =>
    intro st h
    cases hd : derive_signing_key st (get_derivation_path_for_note input.note)
        password with
    | error e =>
      exfalso
      rw [derive_signing_key] at hd
      cases hl : alLookup st.signing_keys (get_derivation_path_for_note input.note) with
      | some k =>
        rw [hl] at hd
        exact absurd hd (by simp)
      | none =>
        rw [hl, h] at hd
        exact absurd hd (by simp)
    | ok out =>
      obtain ⟨k, st1⟩ := out
      have hw : st1.hd_wallet = st.hd_wallet := by
        rw [derive_signing_key] at hd
        cases hl : alLookup st.signing_keys (get_derivation_path_for_note input.note) with
        | some k0 =>
          rw [hl] at hd
          simp only [Except.ok.injEq, Prod.mk.injEq] at hd
          rw [← hd.2]
        | none =>
          rw [hl, h] at hd
          simp only [Except.ok.injEq, Prod.mk.injEq] at hd
          rw [← hd.2]
      obtain ⟨ks, st2, hrec, hklen, hw2⟩ := ih st1 (by rw [hw]; exact h)
      refine ⟨k :: ks, st2, ?_, by simp [hklen], by rw [hw2, hw]⟩
      simp only [sign_loop, hd, hrec, List.map_cons]

/-- C3.  Under explicit hypotheses on the external ed25519 primitive
(signature and key byte lengths, key-byte round-tripping through
`VerifyingKey::from_bytes`, sign-then-verify correctness, and rejection of a
signature or public key with one byte changed), building a transaction over a
ledger whose unspent notes cover `amount + fee` and signing it under a
password that resolves the master key yields a transaction that
`verify_transaction` accepts; changing any single byte of any recorded
signature or public key makes `verify_transaction` return `Ok(false)`. -/
theorem round_trip_signing (S : SigScheme) (hm : HashModel)
    (st : TransactionSignerM) (recipient : String) (amount fee : Nat)
    (memo : Option (List Nat)) (expiry : Nat)
    (strategy : Option NoteSelectionStrategy) (password : String)
    (mk : List Nat)
    (hmk : st.hd_wallet.masterKey password = .ok mk)
    (hsum : amount + fee ≤ get_total_balance st.note_manager)
    (hsLen : ∀ k msg, (S.sign k msg).length = 64)
    (hpLen : ∀ k, (S.pkOf k).length = 32)
    (hpValid : ∀ k, S.pkValid (S.pkOf k) = true)
    (hOk : ∀ k msg, S.verify (S.pkOf k) msg (S.sign k msg) = true)
    (hFlipS : ∀ k msg j b, j < 64 → b ≠ (S.sign k msg).getD j 0 →
      S.verify (S.pkOf k) msg ((S.sign k msg).set j b) = false)
    (hFlipP : ∀ k msg j b, j < 32 → b ≠ (S.pkOf k).getD j 0 →
      S.pkValid ((S.pkOf k).set j b) = true ∧
        S.verify ((S.pkOf k).set j b) msg (S.sign k msg) = false) :
    ∃ tx txs st2,
      build_transaction_with_notes hm st recipient amount fee memo expiry
          strategy = .ok tx ∧
      sign_transaction_with_notes S st tx password = .ok (txs, st2) ∧
      verify_transaction S txs = .ok true ∧
      (∀ i j b, i < txs.signatures.length → j < 64 →
        b ≠ (txs.signatures.getD i default).signature.getD j 0 →
        verify_transaction S (set_sig_byte txs i j b) = .ok false) ∧
      (∀ i j b, i < txs.signatures.length → j < 32 →
        b ≠ (txs.signatures.getD i default).public_key.getD j 0 →
        verify_transaction S (set_pk_byte txs i j b) = .ok false) := by
  obtain ⟨sel, hs⟩ := select_ok_of_sum_ge st.note_manager (amount + fee) strategy hsum
  cases hb : build_transaction_with_notes hm st recipient amount fee memo expiry
      strategy with
  | error e =>
    exfalso
    rw [build_transaction_with_notes, hs] at hb
    exact absurd hb (by simp)
  | ok tx =>
    obtain ⟨ks, st2, hloop, hklen, _⟩ :=
      sign_loop_spec S password tx.tx_hash mk tx.inputs st hmk
    have hsign : sign_transaction_with_notes S st tx password =
        .ok ({ tx with signatures := ks.map (fun k => mkSignature S k tx.tx_hash) },
          st2) := by
      rw [sign_transaction_with_notes, hloop]
    set txs : SignedTransaction :=
      { tx with signatures := ks.map (fun k => mkSignature S k tx.tx_hash) }
      with htxs
    have hsigs : txs.signatures = ks.map (fun k => mkSignature S k tx.tx_hash) := rfl
    have hhash : txs.tx_hash = tx.tx_hash := rfl
    have hinp : txs.inputs = tx.inputs := rfl
    have hlen : txs.signatures.length = txs.inputs.length := by
      rw [hsigs, hinp, List.length_map, hklen]
    have hgoodall : ∀ s ∈ txs.signatures,
        WFSig S s ∧ S.verify s.public_key txs.tx_hash s.signature = true := by
      intro s hsmem
      rw [hsigs] at hsmem
      obtain ⟨k, _, rfl⟩ := List.mem_map.mp hsmem
      exact ⟨⟨hpLen k, hsLen k tx.tx_hash, hpValid k⟩, hOk k tx.tx_hash⟩
    refine ⟨tx, txs, st2, rfl, hsign, ?_, ?_, ?_⟩
    · rw [verify_transaction, if_neg (by simp [hlen])]
      exact verify_sigs_all_true S txs.tx_hash txs.signatures hgoodall
    · intro i j b hi hj hbne
      rw [hsigs] at hi
      rw [List.length_map] at hi
      have hget : txs.signatures[i]? = some (mkSignature S ks[i] tx.tx_hash) := by
        rw [hsigs, List.getElem?_map, List.getElem?_eq_getElem hi]
        rfl
      have hgetD : txs.signatures.getD i default = mkSignature S ks[i] tx.tx_hash := by
        rw [List.getD_eq_getElem?_getD, hget]
        rfl
      rw [hgetD] at hbne
      rw [set_sig_byte, hget]
      have hbad : S.verify (S.pkOf ks[i]) tx.tx_hash
          ((S.sign ks[i] tx.tx_hash).set j b) = false :=
        hFlipS ks[i] tx.tx_hash j b hj hbne
      rw [verify_transaction]
      rw [if_neg (by simp [List.length_set, hlen])]
      exact verify_sigs_set_false S tx.tx_hash txs.signatures i _ hgoodall
        (by rw [hsigs, List.length_map]; exact hi)
        ⟨hpLen ks[i], by simp [mkSignature, List.length_set, hsLen], hpValid ks[i]⟩
        hbad
    · intro i j b hi hj hbne
      rw [hsigs] at hi
      rw [List.length_map] at hi
      have hget : txs.signatures[i]? = some (mkSignature S ks[i] tx.tx_hash) := by
        rw [hsigs, List.getElem?_map, List.getElem?_eq_getElem hi]
        rfl
      have hgetD : txs.signatures.getD i default = mkSignature S ks[i] tx.tx_hash := by
        rw [List.getD_eq_getElem?_getD, hget]
        rfl
      rw [hgetD] at hbne
      rw [set_pk_byte, hget]
      obtain ⟨hvalid2, hbad⟩ := hFlipP ks[i] tx.tx_hash j b hj hbne
      rw [verify_transaction]
      rw [if_neg (by simp [List.length_set, hlen])]
      exact verify_sigs_set_false S tx.tx_hash txs.signatures i _ hgoodall
        (by rw [hsigs, List.length_map]; exact hi)
        ⟨by simp [mkSignature, List.length_set, hpLen], hsLen ks[i] tx.tx_hash, hvalid2⟩
        hbad

/-- C3's hypotheses discharged at the concrete scheme instance `S0`, the
hash instance `hmT`, the one-note signer `signer0`, amount 50, fee 10 and
password `pw`. -/
theorem round_trip_signing_witness :
    ∃ tx txs st2,
      build_transaction_with_notes hmT signer0 "dest" 50 10 none 99
          (some .Balanced) = .ok tx ∧
      sign_transaction_with_notes S0 signer0 tx "pw" = .ok (txs, st2) ∧
      verify_transaction S0 txs = .ok true ∧
      (∀ i j b, i < txs.signatures.length → j < 64 →
        b ≠ (txs.signatures.getD i default).signature.getD j 0 →
        verify_transaction S0 (set_sig_byte txs i j b) = .ok false) ∧
      (∀ i j b, i < txs.signatures.length → j < 32 →
        b ≠ (txs.signatures.getD i default).public_key.getD j 0 →
        verify_transaction S0 (set_pk_byte txs i j b) = .ok false) :=
  round_trip_signing S0 hmT signer0 "dest" 50 10 none 99 (some .Balanced) "pw"
    (List.replicate 32 5) rfl (by decide) S0_sign_len S0_pk_len S0_pk_valid
    S0_correct S0_flip_sig S0_flip_pk

end Nozy
